import Mathlib

/-!
Verification of the solvation-shell extraction core
(`electrolytes/solvation_shell_utils.py` and
`electrolytes/solvation_shell_extract.py`).

The Python code is shallowly embedded: every pure computation becomes a
Lean function, the in-place mutation of `shell_ats` inside `expand_shell`
is made explicit by returning the final value of the seed set alongside
the result list, and the `AssertionError` raised by `rmsd_wrapper` becomes
an `Except String` value that propagates exactly like the Python exception.
External Schrodinger collaborators (the RMSD kernel, the conformer test,
the connectivity atom mapper, the ASL radius query) are parameters of the
embedded functions; their use sites mirror the source exactly.
-/

deriving instance DecidableEq for Except

namespace Omol

/-- A structure as seen by the diversity sampler and the RMSD wrapper:
the atom count plus an opaque payload standing for everything else
(coordinates, elements).  Equality of payloads models Python object
identity of list elements. -/
structure SStruct where
  atomTotal : Nat
  tag : Nat
deriving DecidableEq, Inhabited

/-- Embedding of `rmsd_wrapper(st1, st2)`: assert equal atom counts
(`Except.error` models the `AssertionError`), short-circuit identical
structures to `0.0`, otherwise call the external RMSD kernel
`calcRmsd` (`rmsd.calculate_in_place_rmsd`). -/
def rmsdWrapper (calcRmsd : SStruct → SStruct → ℚ) (st1 st2 : SStruct) :
    Except String ℚ :=
  if st1.atomTotal = st2.atomTotal then
    if st1 = st2 then Except.ok 0 else Except.ok (calcRmsd st1 st2)
  else
    Except.error "Structures must have the same number of atoms for RMSD calculation"

/-- The list comprehension `[rmsd_wrapper(ref, shell) for shell in shells]`:
left to right, aborting at the first raised assertion. -/
def mapRmsd (calcRmsd : SStruct → SStruct → ℚ) (ref : SStruct) :
    List SStruct → Except String (List ℚ)
  | [] => Except.ok []
  | s :: ss =>
    match rmsdWrapper calcRmsd ref s with
    | Except.error e => Except.error e
    | Except.ok d =>
      match mapRmsd calcRmsd ref ss with
      | Except.error e => Except.error e
      | Except.ok ds => Except.ok (d :: ds)

/-- Helper for `argmaxIdx`: scan the remaining list `xs`, whose head sits at
position `i` of the full list, keeping the best value `v` seen so far and
its (smallest) position `b`; strict `v < x` keeps the first maximum, as
`np.argmax` does. -/
def argmaxAux : List ℚ → ℚ → Nat → Nat → Nat
  | [], _, b, _ => b
  | x :: xs, v, b, i => if v < x then argmaxAux xs x i (i + 1) else argmaxAux xs v b (i + 1)

/-- Embedding of `np.argmax`: index of the first occurrence of the maximum
(0 on the empty list, where NumPy would raise). -/
def argmaxIdx : List ℚ → Nat
  | [] => 0
  | x :: xs => argmaxAux xs x 0 1

/-- The `for _ in range(n - 1)` loop of `filter_by_rmsd`: pick
`best = np.argmax(min_rmsds)`, recompute the RMSD row against `best`,
take the pointwise minimum, and add `best` to the selected index set. -/
def samplerLoop (calcRmsd : SStruct → SStruct → ℚ) (shells : List SStruct) :
    Nat → List ℚ → Finset Nat → Except String (Finset Nat)
  | 0, _, idxs => Except.ok idxs
  | k + 1, minR, idxs =>
    let best := argmaxIdx minR
    match mapRmsd calcRmsd (shells.getD best default) shells with
    | Except.error e => Except.error e
    | Except.ok row => samplerLoop calcRmsd shells k (List.zipWith min minR row) (insert best idxs)

/-- Embedding of `filter_by_rmsd(shells, n)`.  The single random draw
`random.randint(0, len(shells) - 1)` is the explicit `seed` parameter
(the function is otherwise deterministic).  Returns the selected index
set `final_shell_idxs`. -/
def filterByRmsd (calcRmsd : SStruct → SStruct → ℚ) (n seed : Nat)
    (shells : List SStruct) : Except String (Finset Nat) :=
  match mapRmsd calcRmsd (shells.getD seed default) shells with
  | Except.error e => Except.error e
  | Except.ok minR => samplerLoop calcRmsd shells (n - 1) minR {seed}

/-- The returned value `[shells[i] for i in final_shell_idxs]` (index order
normalized to ascending; the claims under study only concern which indices
are selected and how many). -/
def filterByRmsdStructs (calcRmsd : SStruct → SStruct → ℚ) (n seed : Nat)
    (shells : List SStruct) : Except String (List SStruct) :=
  match filterByRmsd calcRmsd n seed shells with
  | Except.error e => Except.error e
  | Except.ok idxs => Except.ok ((idxs.sort (· ≤ ·)).map (fun i => shells.getD i default))

/-- The orchestrator loop
`for shell_group in grouped_shells: final_shells.extend(filter_by_rmsd(shell_group, n=top_n))`,
group `g` drawing random seed `seedOf g`.  An exception raised inside a
group propagates: no later group is processed. -/
def sampleAllGroupsAux (calcRmsd : SStruct → SStruct → ℚ) (n : Nat) (seedOf : Nat → Nat) :
    Nat → List (List SStruct) → Except String (List SStruct)
  | _, [] => Except.ok []
  | i, g :: gs =>
    match filterByRmsdStructs calcRmsd n (seedOf i) g with
    | Except.error e => Except.error e
    | Except.ok f =>
      match sampleAllGroupsAux calcRmsd n seedOf (i + 1) gs with
      | Except.error e => Except.error e
      | Except.ok rest => Except.ok (f ++ rest)

/-- The final sampling pass of `extract_solvation_shells` over all groups. -/
def sampleAllGroups (calcRmsd : SStruct → SStruct → ℚ) (n : Nat) (seedOf : Nat → Nat)
    (groups : List (List SStruct)) : Except String (List SStruct) :=
  sampleAllGroupsAux calcRmsd n seedOf 0 groups

/-- A trajectory frame (`schrodinger.structure.Structure`) as seen by
`expand_shell`: the finite atom index set, per-atom molecule number and
stripped residue name (`st.atom[a].molecule_number`,
`st.atom[a].getResidue().pdbres.strip()`), and the external ASL query
`evaluate_asl(st, "fillres within r mol m")` for a single molecule `m`.
ASL matches a residue when any of its atoms is within `r` of any atom of
any listed molecule, so the query for a molecule list is the union of the
single-molecule queries (see `expandLoop`). -/
structure Snapshot where
  atoms : Finset Nat
  molOf : Nat → Nat
  resOf : Nat → String
  fillresMol : ℚ → Nat → Finset Nat

/-- One scan of the current shell: molecule numbers of atoms whose residue
name is a solute name and whose molecule has not been absorbed yet
(the `new_solutes` set of `expand_shell`). -/
def newSolutes (st : Snapshot) (names : List String) (shell solutesIncluded : Finset Nat) :
    Finset Nat :=
  (shell.filter fun a => st.molOf a ∉ solutesIncluded ∧ st.resOf a ∈ names).image st.molOf

/-- The `while len(shell_ats) < max_shell_size` loop of `expand_shell`,
returning the final values of `shell_ats` and `solutes_included`.  The
fuel argument only bounds the iteration count; `expandShellState` passes
strictly more fuel than the number of distinct molecule numbers the loop
can ever absorb, so on snapshots whose ASL query stays inside the
structure the loop always exits through its own `break` conditions,
exactly like the Python `while`. -/
def expandLoop (st : Snapshot) (r : ℚ) (names : List String) (maxShellSize : Nat) :
    Nat → Finset Nat → Finset Nat → Finset Nat × Finset Nat
  | 0, shell, solutesIncluded => (shell, solutesIncluded)
  | fuel + 1, shell, solutesIncluded =>
    if shell.card < maxShellSize then
      if newSolutes st names shell solutesIncluded = ∅ then (shell, solutesIncluded)
      else
        expandLoop st r names maxShellSize fuel
          (shell ∪ (newSolutes st names shell solutesIncluded).biUnion (st.fillresMol r))
          (solutesIncluded ∪ newSolutes st names shell solutesIncluded)
    else (shell, solutesIncluded)

/-- Fuel bound for `expandLoop`: one more than the number of distinct
molecule numbers among the seed atoms and the snapshot's atoms. -/
def expandFuel (st : Snapshot) (shell : Finset Nat) : Nat :=
  ((shell ∪ st.atoms).image st.molOf).card + 1

/-- Embedding of `expand_shell(st, shell_ats, central_solute, radius,
solute_res_names, max_shell_size)` with the mutation made explicit: the
first component is the sorted list the function returns, the second is
the final value of the caller's `shell_ats` set (the function mutates the
seed set in place via `add`/`update`; the final `sorted` only rebinds a
local name). -/
def expandShellState (st : Snapshot) (shellAts : Finset Nat) (centralSolute : Nat)
    (radius : ℚ) (soluteResNames : List String) (maxShellSize : Nat) :
    List Nat × Finset Nat :=
  let shell1 := insert centralSolute shellAts
  let res := expandLoop st radius soluteResNames maxShellSize
    (expandFuel st shell1) shell1 {centralSolute}
  (res.1.sort (· ≤ ·), res.1)

/-- The value `expand_shell` returns: the expanded shell, sorted ascending. -/
def expandShell (st : Snapshot) (shellAts : Finset Nat) (centralSolute : Nat)
    (radius : ℚ) (soluteResNames : List String) (maxShellSize : Nat) : List Nat :=
  (expandShellState st shellAts centralSolute radius soluteResNames maxShellSize).1

/-- A structure as seen by the shell classifier: an abstract connectivity
graph code and the net formal charge. -/
structure CStruct where
  graph : Nat
  charge : Int
deriving DecidableEq

/-- Insert one item into the first group whose representative it matches,
else append a fresh singleton group (the grouping discipline of
`schrodinger.application.jaguar.utils.group_with_comparison`). -/
def addToGroups (conf : α → α → Bool) (x : α) : List (List α) → List (List α)
  | [] => [[x]]
  | g :: gs =>
    if conf (g.headD x) x then (g ++ [x]) :: gs else g :: addToGroups conf x gs

/-- Embedding of `group_with_comparison(expanded_shells, are_conformers)`:
group the population with the external conformer test `conf`, group keys
in order of first occurrence. -/
def groupWithComparison (conf : α → α → Bool) (items : List α) : List (List α) :=
  items.foldl (fun gs x => addToGroups conf x gs) []

/-- The classification step of `extract_solvation_shells`: the population
is grouped by the external `are_conformers` collaborator alone — the
source applies no charge- or stoichiometry-based special casing. -/
def classifyShells (areConformers : CStruct → CStruct → Bool) (shells : List CStruct) :
    List (List CStruct) :=
  groupWithComparison areConformers shells

/-- Embedding of `renumber_molecules_to_match(mol_list)`.  The external
`ConnectivityAtomMapper(use_chirality=·).reorder_structures` collaborator
is the parameter `reorder` (chirality flag first); the source constructs
the mapper with `use_chirality=False` and reorders every non-first member
against the first. -/
def renumberMoleculesToMatch (reorder : Bool → α → α → α) (molList : List α) : List α :=
  match molList with
  | [] => []
  | m0 :: rest => m0 :: rest.map (fun m => reorder false m0 m)

/-- Per-frame work of the orchestrator's frame loop: for every central
solute molecule number, seed a shell with the ASL query
`fillres within radii[0] mol mol_num` and expand it with
`max_shell_size=200`. -/
def frameShells (r : ℚ) (names : List String) (centralMols : List Nat)
    (st : Snapshot) : List (List Nat) :=
  centralMols.map fun molNum =>
    expandShell st (st.fillresMol r molNum) molNum r names 200

/-- The frame loop `for i, st in tqdm(enumerate(structures)): if i > 10: break ...`
of `extract_solvation_shells`, accumulating `expanded_shells`.  The
residue/metadata scan that lists the central solute molecules of a frame
is the parameter `centralsOf`. -/
def extractLoop (r : ℚ) (names : List String) (centralsOf : Snapshot → List Nat) :
    Nat → List Snapshot → List (List Nat)
  | _, [] => []
  | i, st :: rest =>
    if i > 10 then []
    else frameShells r names (centralsOf st) st ++ extractLoop r names centralsOf (i + 1) rest

/-- The accumulated `expanded_shells` population of `extract_solvation_shells`. -/
def extractExpandedShells (r : ℚ) (names : List String)
    (centralsOf : Snapshot → List Nat) (frames : List Snapshot) : List (List Nat) :=
  extractLoop r names centralsOf 0 frames

/-! ### Lemmas about the diversity sampler -/

lemma mapRmsd_ok_length {c : SStruct → SStruct → ℚ} {ref : SStruct}
    {l : List SStruct} {out : List ℚ} (h : mapRmsd c ref l = Except.ok out) :
    out.length = l.length := by
  induction l generalizing out with
  | nil =>
    simp only [mapRmsd, Except.ok.injEq] at h
    simp [← h]
  | cons s ss ih =>
    simp only [mapRmsd] at h
    cases h1 : rmsdWrapper c ref s with
    | error e => rw [h1] at h; exact absurd h (by simp)
    | ok d =>
      rw [h1] at h
      cases h2 : mapRmsd c ref ss with
      | error e => rw [h2] at h; exact absurd h (by simp)
      | ok ds =>
        rw [h2] at h
        simp only [Except.ok.injEq] at h
        simp [← h, ih h2]

lemma argmaxAux_spec (l : List ℚ) :
    ∀ (xs : List ℚ) (i b : Nat) (v : ℚ), xs = l.drop i → b < i → b < l.length →
      v = l.getD b 0 →
      (∀ k, k < i → l.getD k 0 ≤ v) → (∀ k, k < b → l.getD k 0 < v) →
      argmaxAux xs v b i < l.length
      ∧ (∀ k, k < l.length → l.getD k 0 ≤ l.getD (argmaxAux xs v b i) 0)
      ∧ (∀ k, k < argmaxAux xs v b i → l.getD k 0 < l.getD (argmaxAux xs v b i) 0) := by
  intro xs
  induction xs with
  | nil =>
    intro i b v hxs hbi hbl hv hmax hstr
    have hle : l.length ≤ i := List.drop_eq_nil_iff.mp hxs.symm
    refine ⟨by simpa [argmaxAux] using hbl, ?_, ?_⟩
    · intro k hk
      simp only [argmaxAux]
      rw [← hv]
      exact hmax k (lt_of_lt_of_le hk hle)
    · intro k hk
      simp only [argmaxAux] at hk ⊢
      rw [← hv]
      exact hstr k hk
  | cons x xs ih =>
    intro i b v hxs hbi hbl hv hmax hstr
    have hil : i < l.length := by
      by_contra hcon
      have : l.drop i = [] := List.drop_eq_nil_iff.mpr (le_of_not_lt hcon)
      rw [this] at hxs
      exact absurd hxs (by simp)
    have hx : l.getD i 0 = x := by
      have h0 : (l.drop i)[0]? = l[i + 0]? := List.getElem?_drop l i 0
      rw [← hxs] at h0
      simp only [List.getElem?_cons_zero, Nat.add_zero] at h0
      rw [List.getD_eq_getElem?_getD, ← h0]
      rfl
    have hxs' : xs = l.drop (i + 1) := by
      have := congrArg List.tail hxs
      simpa [List.tail_drop] using this
    simp only [argmaxAux]
    by_cases hlt : v < x
    · rw [if_pos hlt]
      refine ih (i + 1) i x hxs' (Nat.lt_succ_self i) hil hx.symm ?_ ?_
      · intro k hk
        rcases Nat.lt_succ_iff_lt_or_eq.mp hk with hk' | hk'
        · exact le_of_lt (lt_of_le_of_lt (hmax k hk') hlt)
        · subst hk'; exact le_of_eq hx
      · intro k hk
        exact lt_of_le_of_lt (hmax k hk) hlt
    · rw [if_neg hlt]
      refine ih (i + 1) b v hxs' (Nat.lt_succ_of_lt hbi) hbl hv ?_ hstr
      intro k hk
      rcases Nat.lt_succ_iff_lt_or_eq.mp hk with hk' | hk'
      · exact hmax k hk'
      · subst hk'; rw [hx]; exact le_of_not_lt hlt

lemma argmaxIdx_spec (l : List ℚ) (h : l ≠ []) :
    argmaxIdx l < l.length
    ∧ (∀ k, k < l.length → l.getD k 0 ≤ l.getD (argmaxIdx l) 0)
    ∧ (∀ k, k < argmaxIdx l → l.getD k 0 < l.getD (argmaxIdx l) 0) := by
  match l, h with
  | x :: xs, _ =>
    have hres := argmaxAux_spec (x :: xs) xs 1 0 x (by simp) Nat.zero_lt_one (by simp)
      (by simp) ?_ ?_
    · simpa [argmaxIdx] using hres
    · intro k hk
      have : k = 0 := by omega
      subst this; simp
    · intro k hk
      exact absurd hk (Nat.not_lt_zero k)

lemma argmaxIdx_lt_length (l : List ℚ) (h : l ≠ []) : argmaxIdx l < l.length :=
  (argmaxIdx_spec l h).1

lemma samplerLoop_subset (c : SStruct → SStruct → ℚ) (shells : List SStruct) :
    ∀ (k : Nat) (minR : List ℚ) (idxs res : Finset Nat),
      samplerLoop c shells k minR idxs = Except.ok res → idxs ⊆ res := by
  intro k
  induction k with
  | zero =>
    intro minR idxs res h
    simp only [samplerLoop, Except.ok.injEq] at h
    exact h ▸ subset_rfl
  | succ k ih =>
    intro minR idxs res h
    simp only [samplerLoop] at h
    cases h1 : mapRmsd c (shells.getD (argmaxIdx minR) default) shells with
    | error e => rw [h1] at h; exact absurd h (by simp)
    | ok row =>
      rw [h1] at h
      exact (Finset.subset_insert _ _).trans (ih _ _ _ h)

lemma samplerLoop_card (c : SStruct → SStruct → ℚ) (shells : List SStruct) :
    ∀ (k : Nat) (minR : List ℚ) (idxs res : Finset Nat),
      samplerLoop c shells k minR idxs = Except.ok res → res.card ≤ idxs.card + k := by
  intro k
  induction k with
  | zero =>
    intro minR idxs res h
    simp only [samplerLoop, Except.ok.injEq] at h
    simp [← h]
  | succ k ih =>
    intro minR idxs res h
    simp only [samplerLoop] at h
    cases h1 : mapRmsd c (shells.getD (argmaxIdx minR) default) shells with
    | error e => rw [h1] at h; exact absurd h (by simp)
    | ok row =>
      rw [h1] at h
      have := ih _ _ _ h
      have hins := Finset.card_insert_le (argmaxIdx minR) idxs
      omega

lemma samplerLoop_mem_lt (c : SStruct → SStruct → ℚ) (shells : List SStruct)
    (hne : shells ≠ []) :
    ∀ (k : Nat) (minR : List ℚ) (idxs res : Finset Nat),
      minR.length = shells.length → (∀ j ∈ idxs, j < shells.length) →
      samplerLoop c shells k minR idxs = Except.ok res →
      ∀ j ∈ res, j < shells.length := by
  intro k
  induction k with
  | zero =>
    intro minR idxs res _ hidx h
    simp only [samplerLoop, Except.ok.injEq] at h
    exact h ▸ hidx
  | succ k ih =>
    intro minR idxs res hlen hidx h
    simp only [samplerLoop] at h
    cases h1 : mapRmsd c (shells.getD (argmaxIdx minR) default) shells with
    | error e => rw [h1] at h; exact absurd h (by simp)
    | ok row =>
      rw [h1] at h
      have hminR : minR ≠ [] := by
        intro hcon
        rw [hcon] at hlen
        exact hne (List.eq_nil_of_length_eq_zero hlen.symm)
      have hbest : argmaxIdx minR < shells.length := hlen ▸ argmaxIdx_lt_length minR hminR
      have hlen' : (List.zipWith min minR row).length = shells.length := by
        rw [List.length_zipWith, hlen, mapRmsd_ok_length h1]
        exact Nat.min_self _
      refine ih _ _ _ hlen' ?_ h
      intro j hj
      rcases Finset.mem_insert.mp hj with hj' | hj'
      · exact hj' ▸ hbest
      · exact hidx j hj'

/-! ### Lemmas about the shell expander -/

lemma expandLoop_grow (st : Snapshot) (r : ℚ) (names : List String) (maxSize : Nat) :
    ∀ (fuel : Nat) (shell solutes : Finset Nat),
      shell ⊆ (expandLoop st r names maxSize fuel shell solutes).1
      ∧ solutes ⊆ (expandLoop st r names maxSize fuel shell solutes).2 := by
  intro fuel
  induction fuel with
  | zero => intro shell solutes; exact ⟨subset_rfl, subset_rfl⟩
  | succ f ih =>
    intro shell solutes
    simp only [expandLoop]
    split
    · split
      · exact ⟨subset_rfl, subset_rfl⟩
      · refine ⟨Finset.subset_union_left.trans (ih _ _).1,
          Finset.subset_union_left.trans (ih _ _).2⟩
    · exact ⟨subset_rfl, subset_rfl⟩

lemma expandLoop_inv (st : Snapshot) (r : ℚ) (names : List String) (maxSize central : Nat) :
    ∀ (fuel : Nat) (shell solutes : Finset Nat),
      (∀ m ∈ solutes, m ≠ central → st.fillresMol r m ⊆ shell) →
      ∀ m ∈ (expandLoop st r names maxSize fuel shell solutes).2, m ≠ central →
        st.fillresMol r m ⊆ (expandLoop st r names maxSize fuel shell solutes).1 := by
  intro fuel
  induction fuel with
  | zero => intro shell solutes hinv; exact hinv
  | succ f ih =>
    intro shell solutes hinv
    simp only [expandLoop]
    split
    · split
      · exact hinv
      · refine ih _ _ ?_
        intro m hm hmc
        rcases Finset.mem_union.mp hm with hm' | hm'
        · exact (hinv m hm' hmc).trans Finset.subset_union_left
        · exact (Finset.subset_biUnion_of_mem (st.fillresMol r) hm').trans
            Finset.subset_union_right
    · exact hinv

lemma newSolutes_subset_image (st : Snapshot) (names : List String)
    (shell solutes : Finset Nat) :
    newSolutes st names shell solutes ⊆ shell.image st.molOf :=
  Finset.image_subset_image (Finset.filter_subset _ _)

lemma newSolutes_disjoint (st : Snapshot) (names : List String)
    (shell solutes : Finset Nat) :
    ∀ m ∈ newSolutes st names shell solutes, m ∉ solutes := by
  intro m hm
  obtain ⟨a, ha, rfl⟩ := Finset.mem_image.mp hm
  exact (Finset.mem_filter.mp ha).2.1

lemma expandLoop_exit (st : Snapshot) (r : ℚ) (names : List String) (maxSize central : Nat)
    (B : Finset Nat) (hatoms : st.atoms ⊆ B)
    (hwf : ∀ m, st.fillresMol r m ⊆ st.atoms) :
    ∀ (fuel : Nat) (shell solutes : Finset Nat),
      shell ⊆ B → solutes ⊆ insert central (B.image st.molOf) →
      (insert central (B.image st.molOf) \ solutes).card < fuel →
      maxSize ≤ (expandLoop st r names maxSize fuel shell solutes).1.card
      ∨ newSolutes st names (expandLoop st r names maxSize fuel shell solutes).1
          (expandLoop st r names maxSize fuel shell solutes).2 = ∅ := by
  intro fuel
  induction fuel with
  | zero => intro shell solutes _ _ hf; exact absurd hf (Nat.not_lt_zero _)
  | succ f ih =>
    intro shell solutes hshell hsol hf
    simp only [expandLoop]
    split
    · rename_i hcard
      split
      · rename_i hns
        exact Or.inr hns
      · rename_i hns
        have hnsub : newSolutes st names shell solutes ⊆ insert central (B.image st.molOf) :=
          ((newSolutes_subset_image st names shell solutes).trans
            (Finset.image_subset_image hshell)).trans (Finset.subset_insert _ _)
        have hshell' : shell ∪ (newSolutes st names shell solutes).biUnion (st.fillresMol r) ⊆ B := by
          refine Finset.union_subset hshell (Finset.biUnion_subset.mpr ?_)
          intro m _
          exact (hwf m).trans hatoms
        have hsol' : solutes ∪ newSolutes st names shell solutes
            ⊆ insert central (B.image st.molOf) := Finset.union_subset hsol hnsub
        refine ih _ _ hshell' hsol' ?_
        have hstrict : insert central (B.image st.molOf) \ (solutes ∪ newSolutes st names shell solutes)
            ⊂ insert central (B.image st.molOf) \ solutes := by
          obtain ⟨m, hm⟩ := Finset.nonempty_iff_ne_empty.mpr hns
          refine Finset.ssubset_iff_of_subset
            (Finset.sdiff_subset_sdiff subset_rfl Finset.subset_union_left) |>.mpr ?_
          refine ⟨m, Finset.mem_sdiff.mpr ⟨hnsub hm, newSolutes_disjoint st names _ _ m hm⟩, ?_⟩
          intro hcon
          exact (Finset.mem_sdiff.mp hcon).2 (Finset.mem_union_right _ hm)
        have := Finset.card_lt_card hstrict
        omega
    · rename_i hcard
      exact Or.inl (le_of_not_lt hcard)

lemma expandLoop_refix (st : Snapshot) (r : ℚ) (names : List String) (maxSize central : Nat)
    (A S : Finset Nat)
    (hexit : maxSize ≤ A.card ∨
      (newSolutes st names A S = ∅ ∧ ∀ m ∈ S, m ≠ central → st.fillresMol r m ⊆ A)) :
    ∀ (fuel : Nat), 0 < fuel →
      (newSolutes st names A {central} ≠ ∅ → 1 < fuel) →
      (expandLoop st r names maxSize fuel A {central}).1 = A := by
  intro fuel hf1 hf2
  obtain ⟨f, rfl⟩ : ∃ f, fuel = f + 1 := ⟨fuel - 1, by omega⟩
  simp only [expandLoop]
  split
  · rename_i hcard
    split
    · rfl
    · rename_i hns2
      rcases hexit with hcap | ⟨hns, hinv⟩
      · exact absurd hcard (not_lt_of_le hcap)
      · have hsubS : newSolutes st names A {central} ⊆ S := by
          intro m hm
          obtain ⟨a, ha, rfl⟩ := Finset.mem_image.mp hm
          obtain ⟨haA, hnotc, hres⟩ := Finset.mem_filter.mp ha
          by_contra hmS
          have hflt : a ∈ A.filter (fun a => st.molOf a ∉ S ∧ st.resOf a ∈ names) :=
            Finset.mem_filter.mpr ⟨haA, hmS, hres⟩
          have : st.molOf a ∈ newSolutes st names A S := Finset.mem_image_of_mem _ hflt
          rw [hns] at this
          exact absurd this (Finset.not_mem_empty _)
        have hnc : ∀ m ∈ newSolutes st names A {central}, m ≠ central := by
          intro m hm
          obtain ⟨a, ha, rfl⟩ := Finset.mem_image.mp hm
          have := (Finset.mem_filter.mp ha).2.1
          simpa using this
        have hupd : A ∪ (newSolutes st names A {central}).biUnion (st.fillresMol r) = A := by
          refine Finset.union_eq_left.mpr (Finset.biUnion_subset.mpr ?_)
          intro m hm
          exact hinv m (hsubS hm) (hnc m hm)
        have hf : 1 ≤ f := by
          have := hf2 hns2
          omega
        obtain ⟨g, rfl⟩ : ∃ g, f = g + 1 := ⟨f - 1, by omega⟩
        · rw [hupd]
          simp only [expandLoop]
          rw [if_pos hcard]
          have hns3 : newSolutes st names A ({central} ∪ newSolutes st names A {central}) = ∅ := by
            rw [newSolutes, Finset.image_eq_empty, Finset.filter_eq_empty_iff]
            intro a haA
            intro hcon
            obtain ⟨hnotin, hres⟩ := hcon
            have hmnc : st.molOf a ∉ ({central} : Finset Nat) := by
              intro hc
              exact hnotin (Finset.mem_union_left _ hc)
            have : st.molOf a ∈ newSolutes st names A {central} :=
              Finset.mem_image_of_mem _ (Finset.mem_filter.mpr ⟨haA, hmnc, hres⟩)
            exact hnotin (Finset.mem_union_right _ this)
          rw [if_pos hns3]
  · rfl

lemma expandShell_length (st : Snapshot) (shellAts : Finset Nat) (centralSolute : Nat)
    (radius : ℚ) (soluteResNames : List String) (maxShellSize : Nat) :
    (expandShell st shellAts centralSolute radius soluteResNames maxShellSize).length
      = (expandShellState st shellAts centralSolute radius soluteResNames maxShellSize).2.card := by
  simp [expandShell, expandShellState, Finset.length_sort]

/-! ### Concrete scenario data -/

/-- Trivial external RMSD kernel for concrete scenarios; its value is
irrelevant wherever the compared structures are identical. -/
def zeroRmsd : SStruct → SStruct → ℚ := fun _ _ => 0

/-- One member of a group of mutually identical shells (Scenario B). -/
def identShell : SStruct := ⟨3, 7⟩

/-- Snapshot on which the expansion loop overshoots the size cap: seed atom 1
belongs to solute residue "EC" of molecule 2, and the radius query around
molecule 2 pulls six atoms in at once. -/
def sCap : Snapshot where
  atoms := {1, 2, 5, 10, 11, 12, 13}
  molOf := fun a => if a = 1 then 2 else a
  resOf := fun a => if a = 1 then "EC" else "SOL"
  fillresMol := fun _ m => if m = 2 then {1, 2, 10, 11, 12, 13} else ∅

/-- Snapshot whose central solute molecule 1 consists of atoms 2 and 3,
while the index 1 itself names an atom of solvent molecule 7. -/
def sMol : Snapshot where
  atoms := {1, 2, 3}
  molOf := fun a => if a = 1 then 7 else 1
  resOf := fun a => if a = 1 then "SOL" else "LI"
  fillresMol := fun _ _ => ∅

/-- Snapshot for the idempotence witness: the seed shell contains atom 2 of
solute molecule 2, whose radius query pulls in atoms 2, 3, 4. -/
def sIdem : Snapshot where
  atoms := {1, 2, 3, 4}
  molOf := fun a => if a = 1 then 1 else if a = 4 then 3 else 2
  resOf := fun a => if a = 2 ∨ a = 3 then "EC" else "SOL"
  fillresMol := fun _ m => if m = 2 then {2, 3, 4} else ∅

/-! ### Claim C1 -/

/-- Claim C1, counterexample: a group of 5 mutually identical shells
(pairwise RMSD 0) with `top_n = 3` and the (valid) random draw 0 makes
`filter_by_rmsd` select the single index 0 — not `min(3, 5) = 3`
elements — because the repeated `np.argmax` ties all resolve to index 0
and the selected-index set deduplicates. -/
theorem claim_C1_cex :
    filterByRmsd zeroRmsd 3 0 (List.replicate 5 identShell) = Except.ok {0}
    ∧ ({0} : Finset Nat).card ≠ min 3 (List.replicate 5 identShell).length := by
  decide

/-- Claim C1 (amended): for every group, target count `n ≥ 1` and in-range
random draw, a successful `filter_by_rmsd` run selects at least one and at
most `min(n, |group|)` indices; the count can fall short of
`min(n, |group|)` when RMSD ties repeat an argmax pick (counterexample
`claim_C1_cex`). -/
theorem claim_C1_sampler_size_bounds
    (c : SStruct → SStruct → ℚ) (n seed : Nat) (shells : List SStruct)
    (res : Finset Nat) (hn : 1 ≤ n) (hs : seed < shells.length)
    (h : filterByRmsd c n seed shells = Except.ok res) :
    1 ≤ res.card ∧ res.card ≤ n ∧ res.card ≤ shells.length := by
  unfold filterByRmsd at h
  cases h1 : mapRmsd c (shells.getD seed default) shells with
  | error e => rw [h1] at h; exact absurd h (by simp)
  | ok minR =>
    rw [h1] at h
    have hsub := samplerLoop_subset c shells (n - 1) minR {seed} res h
    have hseed : seed ∈ res := hsub (Finset.mem_singleton_self seed)
    have hcard := samplerLoop_card c shells (n - 1) minR {seed} res h
    have hne : shells ≠ [] := by
      intro hc
      rw [hc] at hs
      exact absurd hs (by simp)
    have hmem := samplerLoop_mem_lt c shells hne (n - 1) minR {seed} res
      (mapRmsd_ok_length h1)
      (by intro j hj; rw [Finset.mem_singleton.mp hj]; exact hs) h
    refine ⟨Finset.card_pos.mpr ⟨seed, hseed⟩, ?_, ?_⟩
    · have h1c : ({seed} : Finset Nat).card = 1 := Finset.card_singleton seed
      omega
    · have hsubr : res ⊆ Finset.range shells.length := fun j hj =>
        Finset.mem_range.mpr (hmem j hj)
      simpa [Finset.card_range] using Finset.card_le_card hsubr

/-- Claim C1, witness: a concrete successful run (two structures, `n = 1`,
seed 0) on which the amended bounds are discharged. -/
theorem claim_C1_witness :
    1 ≤ ({0} : Finset Nat).card ∧ ({0} : Finset Nat).card ≤ 1
    ∧ ({0} : Finset Nat).card ≤ ([⟨2, 0⟩, ⟨2, 1⟩] : List SStruct).length :=
  claim_C1_sampler_size_bounds zeroRmsd 1 0 [⟨2, 0⟩, ⟨2, 1⟩] {0}
    (by decide) (by decide) (by decide)

/-! ### Claim C2 -/

/-- Claim C2 (code bug): contrary to `max_shell_size`'s documented meaning
("Maximum size (in atoms) of the expanded shell"), `expand_shell` can
return more atoms than the cap: the `while` guard is only checked before
an update, so on `sCap` with cap 3 the loop is entered at size 2 and the
single fill-residue update grows the shell to 7 atoms. -/
theorem claim_C2_cap_exceeded :
    (expandShell sCap {1} 5 3 ["EC"] 3).length = 7
    ∧ 3 < (expandShell sCap {1} 5 3 ["EC"] 3).length := by
  rw [expandShell_length]
  exact ⟨by decide, by decide⟩

/-! ### Claim C5 -/

/-- Claim C5, counterexample: with central solute molecule 1 made of atoms
2 and 3 (`sMol`), expanding from an empty seed returns a shell that misses
atom 2 of the central molecule — only the bare index `central_solute = 1`
(an atom of a different molecule) is added. -/
theorem claim_C5_cex :
    sMol.molOf 2 = 1 ∧ sMol.resOf 2 = "LI"
    ∧ 2 ∉ expandShell sMol ∅ 1 3 ["LI"] 100 := by
  refine ⟨by decide, by decide, ?_⟩
  have h : 2 ∉ (expandShellState sMol ∅ 1 3 ["LI"] 100).2 := by decide
  simpa [expandShell, expandShellState, Finset.mem_sort] using h

/-- Claim C5 (amended): the expander's output always contains the index
`central_solute` itself, added to the seed set when absent before expansion
begins; the other atoms of the central solute molecule are not guaranteed
to be present (counterexample `claim_C5_cex`). -/
theorem claim_C5_central_index_mem (st : Snapshot) (shellAts : Finset Nat)
    (centralSolute : Nat) (radius : ℚ) (soluteResNames : List String)
    (maxShellSize : Nat) :
    centralSolute ∈ expandShell st shellAts centralSolute radius soluteResNames maxShellSize := by
  show centralSolute ∈ (expandShellState st shellAts centralSolute radius soluteResNames maxShellSize).1
  simp only [expandShellState, Finset.mem_sort]
  exact (expandLoop_grow st radius soluteResNames maxShellSize
    (expandFuel st (insert centralSolute shellAts)) (insert centralSolute shellAts)
    {centralSolute}).1 (Finset.mem_insert_self _ _)

/-! ### Claim C9 -/

/-- Claim C9, counterexample: `expand_shell` mutates its seed-set argument:
called on the empty seed set, the caller's set afterwards holds `{1}`,
not the original `∅` — expansion is not a pure function of an unchanged
input. -/
theorem claim_C9_cex :
    (expandShellState sMol ∅ 1 3 ["LI"] 100).2 = {1}
    ∧ ({1} : Finset Nat) ≠ (∅ : Finset Nat) := by
  decide

/-- Claim C9 (amended): classification, renumbering and sampling return new
values, but `expand_shell` updates its seed set in place: after the call
the caller's `shell_ats` holds exactly the atoms of the returned expanded
shell (counterexample `claim_C9_cex` shows an actual change). -/
theorem claim_C9_seed_set_mutated_to_result (st : Snapshot) (shellAts : Finset Nat)
    (centralSolute : Nat) (radius : ℚ) (soluteResNames : List String)
    (maxShellSize : Nat) :
    (expandShellState st shellAts centralSolute radius soluteResNames maxShellSize).2
      = (expandShell st shellAts centralSolute radius soluteResNames maxShellSize).toFinset := by
  simp [expandShell, expandShellState, Finset.sort_toFinset]

/-! ### Claim C6 -/

/-- Claim C6 (confirmed): shell expansion is idempotent — re-running
`expand_shell` on the atom set it produced, with the same snapshot, central
solute, radius, solute residue names and cap, returns the same sorted atom
list.  The hypothesis `hwf` states the external ASL radius query only
returns atom indices of the snapshot, which holds for the real collaborator
by construction. -/
theorem claim_C6_expandShell_idempotent (st : Snapshot) (shellAts : Finset Nat)
    (centralSolute : Nat) (radius : ℚ) (soluteResNames : List String)
    (maxShellSize : Nat)
    (hwf : ∀ m, st.fillresMol radius m ⊆ st.atoms) :
    expandShell st
        (expandShell st shellAts centralSolute radius soluteResNames maxShellSize).toFinset
        centralSolute radius soluteResNames maxShellSize
      = expandShell st shellAts centralSolute radius soluteResNames maxShellSize := by
  obtain ⟨A, S, hAS⟩ : ∃ A S,
      expandLoop st radius soluteResNames maxShellSize
        (expandFuel st (insert centralSolute shellAts)) (insert centralSolute shellAts)
        {centralSolute} = (A, S) := ⟨_, _, rfl⟩
  have hA1 : (expandLoop st radius soluteResNames maxShellSize
      (expandFuel st (insert centralSolute shellAts)) (insert centralSolute shellAts)
      {centralSolute}).1 = A := congrArg Prod.fst hAS
  have hA2 : (expandLoop st radius soluteResNames maxShellSize
      (expandFuel st (insert centralSolute shellAts)) (insert centralSolute shellAts)
      {centralSolute}).2 = S := congrArg Prod.snd hAS
  have hrun1 : expandShell st shellAts centralSolute radius soluteResNames maxShellSize
      = A.sort (· ≤ ·) := by
    simp only [expandShell, expandShellState, hA1]
  have hc : centralSolute ∈ A := by
    rw [← hA1]
    exact (expandLoop_grow st radius soluteResNames maxShellSize _
      (insert centralSolute shellAts) {centralSolute}).1 (Finset.mem_insert_self _ _)
  have hexit : maxShellSize ≤ A.card ∨ newSolutes st soluteResNames A S = ∅ := by
    have hex := expandLoop_exit st radius soluteResNames maxShellSize centralSolute
      (insert centralSolute shellAts ∪ st.atoms) Finset.subset_union_right hwf
      (expandFuel st (insert centralSolute shellAts)) (insert centralSolute shellAts)
      {centralSolute} Finset.subset_union_left
      (by simp) ?_
    · rw [hA1, hA2] at hex
      exact hex
    · have hsub : insert centralSolute
          ((insert centralSolute shellAts ∪ st.atoms).image st.molOf) \ {centralSolute}
          ⊆ (insert centralSolute shellAts ∪ st.atoms).image st.molOf := by
        intro x hx
        obtain ⟨hx1, hx2⟩ := Finset.mem_sdiff.mp hx
        rcases Finset.mem_insert.mp hx1 with hcase | hcase
        · exact absurd (Finset.mem_singleton.mpr hcase) hx2
        · exact hcase
      have hcle := Finset.card_le_card hsub
      simp only [expandFuel]
      omega
  have hinv : ∀ m ∈ S, m ≠ centralSolute → st.fillresMol radius m ⊆ A := by
    have hiv := expandLoop_inv st radius soluteResNames maxShellSize centralSolute
      (expandFuel st (insert centralSolute shellAts)) (insert centralSolute shellAts)
      {centralSolute}
      (by intro m hm hne; exact absurd (Finset.mem_singleton.mp hm) hne)
    rw [hA1, hA2] at hiv
    exact hiv
  rw [hrun1, Finset.sort_toFinset]
  show (expandShellState st A centralSolute radius soluteResNames maxShellSize).1
      = A.sort (· ≤ ·)
  simp only [expandShellState]
  rw [Finset.insert_eq_self.mpr hc]
  have hfix : (expandLoop st radius soluteResNames maxShellSize
      (expandFuel st A) A {centralSolute}).1 = A := by
    refine expandLoop_refix st radius soluteResNames maxShellSize centralSolute A S
      ?_ (expandFuel st A) ?_ ?_
    · rcases hexit with hcap | hns
      · exact Or.inl hcap
      · exact Or.inr ⟨hns, hinv⟩
    · simp [expandFuel]
    · intro hne
      obtain ⟨m, hm⟩ := Finset.nonempty_iff_ne_empty.mpr hne
      obtain ⟨a, ha, rfl⟩ := Finset.mem_image.mp hm
      have haA : a ∈ A := (Finset.mem_filter.mp ha).1
      have hmem : st.molOf a ∈ (A ∪ st.atoms).image st.molOf :=
        Finset.mem_image_of_mem _ (Finset.mem_union_left _ haA)
      have hpos : 0 < ((A ∪ st.atoms).image st.molOf).card :=
        Finset.card_pos.mpr ⟨_, hmem⟩
      simp only [expandFuel]
      omega
  rw [hfix]

/-- Claim C6, witness: idempotence discharged on the concrete snapshot
`sIdem`, whose expansion genuinely grows the seed shell from 3 to 4 atoms. -/
theorem claim_C6_witness :
    (∀ m, sIdem.fillresMol 3 m ⊆ sIdem.atoms)
    ∧ expandShell sIdem (expandShell sIdem {1, 2} 1 3 ["EC"] 100).toFinset 1 3 ["EC"] 100
      = expandShell sIdem {1, 2} 1 3 ["EC"] 100 := by
  have hwf : ∀ m, sIdem.fillresMol 3 m ⊆ sIdem.atoms := by
    intro m
    simp only [sIdem]
    split_ifs
    · decide
    · exact Finset.empty_subset _
  exact ⟨hwf, claim_C6_expandShell_idempotent sIdem {1, 2} 1 3 ["EC"] 100 hwf⟩

/-! ### Claim C3 -/

/-- Claim C3, counterexample: two structurally distinct shells (different
connectivity graphs) each of net charge −1 are split into two groups by
the classifier, contradicting the claim that a charged bucket is kept as a
single group: the source groups by `are_conformers` alone. -/
theorem claim_C3_cex :
    (classifyShells (fun a b => a.graph == b.graph) [⟨0, -1⟩, ⟨1, -1⟩]).length = 2
    ∧ (⟨0, -1⟩ : CStruct).charge = -1 ∧ (⟨1, -1⟩ : CStruct).charge = -1
    ∧ (⟨0, -1⟩ : CStruct).graph ≠ (⟨1, -1⟩ : CStruct).graph := by
  decide

/-- Claim C3 (amended): the classifier applies the conformer test uniformly,
with no charge-based special case: any two shells the conformer test
distinguishes are placed in two distinct groups, whatever their net
charges. -/
theorem claim_C3_classifier_splits_regardless_of_charge
    (conf : CStruct → CStruct → Bool) (s t : CStruct) (h : conf s t = false) :
    classifyShells conf [s, t] = [[s], [t]] := by
  simp [classifyShells, groupWithComparison, addToGroups, h]

/-- Claim C3, witness: the amended splitting behaviour discharged on a
concrete neutral pair of distinct graphs. -/
theorem claim_C3_witness :
    classifyShells (fun a b => a.graph == b.graph) [⟨5, 0⟩, ⟨6, 0⟩]
      = [[⟨5, 0⟩], [⟨6, 0⟩]] :=
  claim_C3_classifier_splits_regardless_of_charge _ _ _ (by decide)

/-! ### Claim C4 -/

lemma sampleAllGroupsAux_ok (c : SStruct → SStruct → ℚ) (n : Nat) (seedOf : Nat → Nat) :
    ∀ (gs : List (List SStruct)) (i : Nat) (res : List SStruct),
      sampleAllGroupsAux c n seedOf i gs = Except.ok res →
      ∀ j, j < gs.length →
        ∃ out, filterByRmsdStructs c n (seedOf (i + j)) (gs.getD j []) = Except.ok out := by
  intro gs
  induction gs with
  | nil =>
    intro i res _ j hj
    exact absurd hj (by simp)
  | cons g gs' ih =>
    intro i res h j hj
    simp only [sampleAllGroupsAux] at h
    cases h1 : filterByRmsdStructs c n (seedOf i) g with
    | error e => rw [h1] at h; exact absurd h (by simp)
    | ok f =>
      rw [h1] at h
      cases h2 : sampleAllGroupsAux c n seedOf (i + 1) gs' with
      | error e => rw [h2] at h; exact absurd h (by simp)
      | ok rest =>
        match j with
        | 0 => exact ⟨f, by simpa using h1⟩
        | j' + 1 =>
          have hj' : j' < gs'.length := by simpa using hj
          have hrec := ih (i + 1) rest h2 j' hj'
          have harith : i + 1 + j' = i + (j' + 1) := by omega
          rw [harith] at hrec
          simpa using hrec

/-- Claim C4 (amended): an atom-count mismatch makes `rmsd_wrapper` raise
(and that is the only way it raises), but the error is NOT caught at the
group level: the orchestrator's sampling loop has no handler, so a whole
run succeeds only if every single group's sampling succeeds — there is no
partial-failure isolation (counterexample `claim_C4_cex` shows one bad
group aborting the run). -/
theorem claim_C4_mismatch_aborts_pipeline :
    (∀ (c : SStruct → SStruct → ℚ) (st1 st2 : SStruct),
        (∃ e, rmsdWrapper c st1 st2 = Except.error e) ↔ st1.atomTotal ≠ st2.atomTotal)
    ∧ ∀ (c : SStruct → SStruct → ℚ) (n : Nat) (seedOf : Nat → Nat)
        (groups : List (List SStruct)) (res : List SStruct),
          sampleAllGroups c n seedOf groups = Except.ok res →
          ∀ j, j < groups.length →
            ∃ out, filterByRmsdStructs c n (seedOf j) (groups.getD j []) = Except.ok out := by
  constructor
  · intro c st1 st2
    constructor
    · rintro ⟨e, he⟩ hcon
      rw [rmsdWrapper, if_pos hcon] at he
      split_ifs at he
    · intro hne
      exact ⟨_, by rw [rmsdWrapper, if_neg hne]⟩
  · intro c n seedOf groups res h j hj
    have hrec := sampleAllGroupsAux_ok c n seedOf groups 0 res h j hj
    simpa using hrec

/-- Claim C4, counterexample: a first group holding structures of 2 and 3
atoms makes the distance collaborator raise; the error escapes the group
loop, so the second (healthy) group `[⟨2, 2⟩]` is never processed and the
whole pipeline aborts with the assertion message. -/
theorem claim_C4_cex :
    sampleAllGroups zeroRmsd 1 (fun _ => 0) [[⟨2, 0⟩, ⟨3, 1⟩], [⟨2, 2⟩]]
      = Except.error "Structures must have the same number of atoms for RMSD calculation" := by
  decide

/-- Claim C4, witness: the amended theorem discharged on a concrete
single-group run that succeeds. -/
theorem claim_C4_witness :
    ∃ out, filterByRmsdStructs zeroRmsd 1 0 ([(⟨2, 2⟩ : SStruct)]) = Except.ok out := by
  have happ := claim_C4_mismatch_aborts_pipeline.2 zeroRmsd 1 (fun _ => 0)
    [[⟨2, 2⟩]] [⟨2, 2⟩] ?_ 0 (by simp)
  · simpa using happ
  · simp [sampleAllGroups, sampleAllGroupsAux, filterByRmsdStructs, filterByRmsd,
      mapRmsd, rmsdWrapper, samplerLoop, Finset.sort_singleton]

/-! ### Claim C7 -/

/-- Claim C7 (confirmed): on a non-empty group, the renumberer returns a
list of the same length in the same order, whose first member is the
reference returned unchanged and whose later members are the external
connectivity mapper's re-indexed copies, built with chirality disabled
(`use_chirality=False` is the literal `false` passed to `reorder`). -/
theorem claim_C7_renumber_contract {α : Type _} (reorder : Bool → α → α → α)
    (m0 : α) (rest : List α) :
    (renumberMoleculesToMatch reorder (m0 :: rest)).length = (m0 :: rest).length
    ∧ (renumberMoleculesToMatch reorder (m0 :: rest)).head? = some m0
    ∧ ∀ i : Nat, (renumberMoleculesToMatch reorder (m0 :: rest))[i + 1]? =
        (rest[i]?).map (fun m => reorder false m0 m) := by
  refine ⟨by simp [renumberMoleculesToMatch], by simp [renumberMoleculesToMatch], ?_⟩
  intro i
  simp [renumberMoleculesToMatch]

/-! ### Claim C8 -/

/-- Claim C8 (confirmed): with the random draw made explicit, the sampler
is a pure function of (group, n, seed) — two runs with the same seed give
the same selected indices — and each greedy iteration's `np.argmax` pick
is the candidate with the largest `min_dist`, ties broken by smallest
index. -/
theorem claim_C8_deterministic_greedy :
    (∀ (c : SStruct → SStruct → ℚ) (n seed : Nat) (shells : List SStruct),
        filterByRmsd c n seed shells = filterByRmsd c n seed shells)
    ∧ ∀ l : List ℚ, l ≠ [] →
        argmaxIdx l < l.length
        ∧ (∀ k, k < l.length → l.getD k 0 ≤ l.getD (argmaxIdx l) 0)
        ∧ (∀ k, k < argmaxIdx l → l.getD k 0 < l.getD (argmaxIdx l) 0) :=
  ⟨fun _ _ _ _ => rfl, argmaxIdx_spec⟩

/-- Claim C8, witness: the determinism and argmax components discharged at
a concrete run and a concrete tied score list. -/
theorem claim_C8_witness :
    (filterByRmsd zeroRmsd 1 0 [identShell] = filterByRmsd zeroRmsd 1 0 [identShell])
    ∧ (argmaxIdx [(0 : ℚ), 1, 1] < ([(0 : ℚ), 1, 1]).length
      ∧ (∀ k, k < ([(0 : ℚ), 1, 1]).length →
          ([(0 : ℚ), 1, 1]).getD k 0 ≤ ([(0 : ℚ), 1, 1]).getD (argmaxIdx [(0 : ℚ), 1, 1]) 0)
      ∧ (∀ k, k < argmaxIdx [(0 : ℚ), 1, 1] →
          ([(0 : ℚ), 1, 1]).getD k 0 < ([(0 : ℚ), 1, 1]).getD (argmaxIdx [(0 : ℚ), 1, 1]) 0)) :=
  ⟨claim_C8_deterministic_greedy.1 zeroRmsd 1 0 [identShell],
   claim_C8_deterministic_greedy.2 [0, 1, 1] (by simp)⟩

/-! ### Claim C10 -/

lemma extractLoop_take (r : ℚ) (names : List String) (centralsOf : Snapshot → List Nat) :
    ∀ (frames : List Snapshot) (i : Nat),
      extractLoop r names centralsOf i frames
        = extractLoop r names centralsOf i (frames.take (11 - i)) := by
  intro frames
  induction frames with
  | nil => intro i; simp
  | cons st rest ih =>
    intro i
    by_cases h : i > 10
    · have h0 : 11 - i = 0 := by omega
      rw [h0]
      simp [extractLoop, h]
    · have h1 : 11 - i = (10 - i) + 1 := by omega
      rw [h1, List.take_succ_cons]
      simp only [extractLoop, if_neg h]
      have h2 : 10 - i = 11 - (i + 1) := by omega
      rw [h2, ← ih (i + 1)]

/-- Claim C10 (confirmed): the orchestrator's frame loop breaks as soon as
the frame index exceeds 10, so the accumulated shell population only
depends on the first 11 frames of the trajectory — later frames contribute
nothing. -/
theorem claim_C10_first_11_frames (r : ℚ) (names : List String)
    (centralsOf : Snapshot → List Nat) (frames : List Snapshot) :
    extractExpandedShells r names centralsOf frames
      = extractExpandedShells r names centralsOf (frames.take 11) := by
  unfold extractExpandedShells
  simpa using extractLoop_take r names centralsOf frames 0

end Omol
